import Mathlib

/-!
Verification of the telecmd message-dispatch pipeline.

Shallow embedding of the Go sources:
  - `internal/telecmd/telecmd.go` : matcher, command builder, process runner,
    output interpreter, per-message dispatch steps;
  - `internal/telecmd/types.go`   : `Rule`, `Config` and their validation;
  - the legacy root `main.go`     : the older inlined variant of the same loop.

External collaborators (Go standard library and third-party packages) are
modelled explicitly:
  - `regexp.MatchString` is an abstract match predicate parameter
    `m : String → String → Bool` (pattern, text): the matcher's ordering policy
    is proved for every predicate;
  - `encoding/json.Unmarshal` into `struct \x7b Message string \x7d` is modelled by a
    JSON parser (`parseJson` / `unmarshalMessage`) following RFC 8259 grammar and
    Go's decoding rules (case-insensitive field match restricted to ASCII,
    last duplicate key wins, `null` assigns nothing, non-string `message`
    value is a type error);
  - `os/exec` process launching is modelled by feeding `runCommand` the outcome
    of `cmd.Output()` as data (`ExecErr`);
  - `strings.TrimSpace` is modelled on the ASCII whitespace characters plus
    U+0085 and U+00A0 (`goTrimSpace`).
-/

namespace Telecmd

/-! ## JSON values and parser (model of encoding/json) -/

/-- JSON value tree. Numbers keep their raw token: no claim depends on the
numeric value, only on grammatical validity. -/
inductive Json where
  | null
  | bool (b : Bool)
  | num (raw : String)
  | str (s : String)
  | arr (elems : List Json)
  | obj (fields : List (String × Json))

/-- JSON insignificant whitespace (RFC 8259, as in Go's json scanner). -/
def isJsonWs (c : Char) : Bool :=
  c = ' ' || c = '\t' || c = '\n' || c = '\r'

/-- Drop leading JSON whitespace. -/
def skipWs : List Char → List Char
  | [] => []
  | c :: cs => if isJsonWs c then skipWs cs else c :: cs

/-- Value of a hexadecimal digit. -/
def hexVal : Char → Option Nat
  | c =>
    if '0' ≤ c ∧ c ≤ '9' then some (c.toNat - '0'.toNat)
    else if 'a' ≤ c ∧ c ≤ 'f' then some (c.toNat - 'a'.toNat + 10)
    else if 'A' ≤ c ∧ c ≤ 'F' then some (c.toNat - 'A'.toNat + 10)
    else none

/-- Parse the body of a JSON string after the opening quote, decoding escapes
as Go's json unquoter does (surrogate pairs combined, lone surrogates become
U+FFFD, raw control characters are an error). `fuel` bounds recursion; the
top-level caller supplies more fuel than the input length, so fuel never runs
out on real inputs. -/
def pJString : Nat → List Char → List Char → Option (String × List Char)
  | 0, _, _ => none
  | fuel + 1, acc, c :: rest =>
    if c = '"' then
      some (String.mk acc.reverse, rest)
    else if c = '\\' then
      match rest with
      | [] => none
      | e :: rest1 =>
        if e = '"' then pJString fuel ('"' :: acc) rest1
        else if e = '\\' then pJString fuel ('\\' :: acc) rest1
        else if e = '/' then pJString fuel ('/' :: acc) rest1
        else if e = 'b' then pJString fuel ('\x08' :: acc) rest1
        else if e = 'f' then pJString fuel ('\x0c' :: acc) rest1
        else if e = 'n' then pJString fuel ('\n' :: acc) rest1
        else if e = 'r' then pJString fuel ('\r' :: acc) rest1
        else if e = 't' then pJString fuel ('\t' :: acc) rest1
        else if e = 'u' then
          match rest1 with
          | h1 :: h2 :: h3 :: h4 :: rest2 =>
            match hexVal h1, hexVal h2, hexVal h3, hexVal h4 with
            | some a, some b, some c1, some d =>
              let n := ((a * 16 + b) * 16 + c1) * 16 + d
              if 0xD800 ≤ n ∧ n ≤ 0xDFFF then
                match rest2 with
                | '\\' :: 'u' :: g1 :: g2 :: g3 :: g4 :: rest3 =>
                  match hexVal g1, hexVal g2, hexVal g3, hexVal g4 with
                  | some a2, some b2, some c2, some d2 =>
                    let m := ((a2 * 16 + b2) * 16 + c2) * 16 + d2
                    if 0xD800 ≤ n ∧ n ≤ 0xDBFF ∧ 0xDC00 ≤ m ∧ m ≤ 0xDFFF then
                      pJString fuel
                        (Char.ofNat (0x10000 + (n - 0xD800) * 0x400 + (m - 0xDC00)) :: acc) rest3
                    else pJString fuel ('�' :: acc) rest2
                  | _, _, _, _ => pJString fuel ('�' :: acc) rest2
                | _ => pJString fuel ('�' :: acc) rest2
              else pJString fuel (Char.ofNat n :: acc) rest2
            | _, _, _, _ => none
          | _ => none
        else none
    else if c.toNat < 0x20 then none
    else pJString fuel (c :: acc) rest
  | _ + 1, _, [] => none

/-- Parse a JSON number token (RFC 8259 grammar), returning its raw text. -/
def pNumber (cs : List Char) : Option (String × List Char) :=
  let (sgn, cs1) :=
    match cs with
    | '-' :: t => (['-'], t)
    | _ => (([] : List Char), cs)
  let intPart : Option (List Char × List Char) :=
    match cs1 with
    | '0' :: t => some (['0'], t)
    | c :: t =>
      if c.isDigit ∧ c ≠ '0' then
        some (c :: t.takeWhile Char.isDigit, t.dropWhile Char.isDigit)
      else none
    | [] => none
  match intPart with
  | none => none
  | some (ip, cs2) =>
    let fracPart : Option (List Char × List Char) :=
      match cs2 with
      | '.' :: t =>
        let ds := t.takeWhile Char.isDigit
        if ds = [] then none else some ('.' :: ds, t.dropWhile Char.isDigit)
      | _ => some ([], cs2)
    match fracPart with
    | none => none
    | some (fp, cs3) =>
      let expPart : Option (List Char × List Char) :=
        match cs3 with
        | e :: t =>
          if e = 'e' ∨ e = 'E' then
            let (es, t1) :=
              match t with
              | '+' :: u => (['+'], u)
              | '-' :: u => (['-'], u)
              | _ => (([] : List Char), t)
            let ds := t1.takeWhile Char.isDigit
            if ds = [] then none else some (e :: es ++ ds, t1.dropWhile Char.isDigit)
          else some ([], cs3)
        | [] => some ([], [])
      match expPart with
      | none => none
      | some (ep, cs4) => some (String.mk (sgn ++ ip ++ fp ++ ep), cs4)

/-- Pending parse task: a value, the members of an object (positioned at a
key's opening quote, with the fields parsed so far), or the elements of an
array (positioned at the next element, with the elements parsed so far).
A single task type keeps the parser's recursion structural in its fuel, so
that it reduces inside the kernel. -/
inductive PTask where
  | value (cs : List Char)
  | members (cs : List Char) (acc : List (String × Json))
  | elems (cs : List Char) (acc : List Json)

/-- Run one parse task. Values skip their leading whitespace. -/
def pStep : Nat → PTask → Option (Json × List Char)
  | 0, _ => none
  | fuel + 1, .value cs =>
    match skipWs cs with
    | [] => none
    | c :: rest =>
      if c = 'n' then
        match rest with
        | 'u' :: 'l' :: 'l' :: t => some (.null, t)
        | _ => none
      else if c = 't' then
        match rest with
        | 'r' :: 'u' :: 'e' :: t => some (.bool true, t)
        | _ => none
      else if c = 'f' then
        match rest with
        | 'a' :: 'l' :: 's' :: 'e' :: t => some (.bool false, t)
        | _ => none
      else if c = '"' then
        (pJString fuel [] rest).map fun p => (.str p.1, p.2)
      else if c = '\x7b' then
        match skipWs rest with
        | '\x7d' :: t => some (.obj [], t)
        | cs1 => pStep fuel (.members cs1 [])
      else if c = '[' then
        match skipWs rest with
        | ']' :: t => some (.arr [], t)
        | cs1 => pStep fuel (.elems cs1 [])
      else
        (pNumber (c :: rest)).map fun p => (.num p.1, p.2)
  | fuel + 1, .members cs acc =>
    match cs with
    | '"' :: rest =>
      match pJString fuel [] rest with
      | none => none
      | some (k, t1) =>
        match skipWs t1 with
        | ':' :: t2 =>
          match pStep fuel (.value t2) with
          | none => none
          | some (v, t3) =>
            match skipWs t3 with
            | ',' :: t4 => pStep fuel (.members (skipWs t4) (acc ++ [(k, v)]))
            | '\x7d' :: t4 => some (.obj (acc ++ [(k, v)]), t4)
            | _ => none
        | _ => none
    | _ => none
  | fuel + 1, .elems cs acc =>
    match pStep fuel (.value cs) with
    | none => none
    | some (v, t) =>
      match skipWs t with
      | ',' :: t2 => pStep fuel (.elems t2 (acc ++ [v]))
      | ']' :: t2 => some (.arr (acc ++ [v]), t2)
      | _ => none

/-- Parse one JSON value, skipping leading whitespace. -/
def pValue (fuel : Nat) (cs : List Char) : Option (Json × List Char) :=
  pStep fuel (.value cs)

/-- Parse a complete JSON text: one value with optional surrounding
whitespace, nothing after it. -/
def parseJson (s : String) : Option Json :=
  let cs := s.data
  match pValue (4 * cs.length + 16) cs with
  | some (v, rest) => if skipWs rest = [] then some v else none
  | none => none

/-- ASCII-case-insensitive string equality, as Go's field matching uses
for JSON keys (Go folds full Unicode; the claims only involve ASCII). -/
def eqFoldAscii (a b : String) : Bool :=
  a.data.map Char.toLower == b.data.map Char.toLower

/-- Model of `json.Unmarshal([]byte(output), &struct\x7bMessage string\x7d)` followed
by reading `.Message`: `none` means Unmarshal returned a non-nil error.
Top-level `null` assigns nothing (empty message); a non-object is a type
error; within an object, each key case-insensitively equal to `message` must
hold a string (or `null`, which assigns nothing), the last one wins; other
keys are ignored. -/
def unmarshalMessage (s : String) : Option String :=
  match parseJson s with
  | none => none
  | some .null => some ""
  | some (.obj fields) =>
    let step : String × Bool → String × Json → String × Bool := fun st kv =>
      if eqFoldAscii kv.1 "message" then
        match kv.2 with
        | .str v => (v, st.2)
        | .null => st
        | _ => (st.1, true)
      else st
    let r := fields.foldl step ("", false)
    if r.2 then none else some r.1
  | some _ => none

/-! ## Output interpreter (`chattableFromStdout`, telecmd.go lines 155-175) -/

/-- Model of Go's `unicode.IsSpace` on the characters relevant to
`strings.TrimSpace`: ASCII whitespace plus U+0085 and U+00A0 (further
Unicode space characters are out of the claims' scope). -/
def goIsSpace (c : Char) : Bool :=
  c = ' ' || c = '\t' || c = '\n' || c = '\x0b' || c = '\x0c' || c = '\r' ||
    c.toNat = 0x85 || c.toNat = 0xA0

/-- Model of `strings.TrimSpace`. -/
def goTrimSpace (s : String) : String :=
  String.mk (((s.data.dropWhile goIsSpace).reverse.dropWhile goIsSpace).reverse)

/-- Model of `strings.HasPrefix(s, "\x7b")`: the needle is the single
character `\x7b`, so the check is on the first character. -/
def hasBraceStart (s : String) : Bool :=
  match s.data with
  | c :: _ => c = '\x7b'
  | [] => false

/-- The fields of `tgbotapi.MessageConfig` that `chattableFromStdout` and the
dispatcher set: target chat, message text, and the keyboard-removal reply
markup (`NewRemoveKeyboard(false)`). -/
structure MessageConfig where
  chatID : Int
  text : String
  removeKeyboard : Bool
deriving DecidableEq

/-- Model of `chattableFromStdout` (telecmd.go lines 155-175). `none` models
the `unknown output format` error return. -/
def chattableFromStdout (chatID : Int) (output : String) : Option MessageConfig :=
  if ¬ hasBraceStart (goTrimSpace output) then
    some { chatID := chatID, text := output, removeKeyboard := true }
  else
    match unmarshalMessage output with
    | some msg => some { chatID := chatID, text := msg, removeKeyboard := true }
    | none => none

/-! ## Data model (`types.go`) -/

/-- `Rule` (types.go lines 31-38). -/
structure Rule where
  Name : String := ""
  Pattern : String := ""
  WorkingDirectory : String := ""
  UseStdin : Bool := false
  Environment : List String := []
  Command : List String := []
deriving DecidableEq

/-- `Config` (types.go lines 51-56). -/
structure Config where
  BotToken : String := ""
  Debug : Bool := false
  Rules : List Rule := []
  CommandTimeout : String := ""

/-- Model of `Rule.Validate` (types.go lines 40-49), parameterized by which
pattern sources `regexp.Compile` accepts (external library). `some e` is the
error return. -/
def Rule.Validate (compiles : String → Bool) (r : Rule) : Option String :=
  if ¬ compiles r.Pattern then some "invalid regex"
  else if r.Command.length = 0 then some "invalid command"
  else none

/-- Model of `Config.Validate` (types.go lines 66-76): empty rule list is an
error; otherwise the first per-rule validation error is returned. -/
def Config.Validate (compiles : String → Bool) (c : Config) : Option String :=
  if c.Rules.length = 0 then some "rule list cannot be empty"
  else
    c.Rules.enum.findSome? fun ir =>
      (Rule.Validate compiles ir.2).map fun e =>
        "invalid rule " ++ toString ir.1 ++ ": " ++ e

/-! ## Rule matching -/

/-- Model of `ruleFromMessage` (telecmd.go lines 105-113), the matcher of the
current pipeline: loop over the configured rules in order, return on the
first whose pattern matches the message text. `m pattern text` stands for
`regexp.MatchString(pattern, text)` (unanchored search, external library);
the ordering policy is proved for every such predicate. -/
def ruleFromMessage (m : String → String → Bool) : List Rule → String → Option Rule
  | [], _ => none
  | r :: rest, text => if m r.Pattern text then some r else ruleFromMessage m rest text

/-- Model of the inlined matcher loop of the legacy root `main.go`
(unnamed/part_000 lines 187-193). The loop stores `&rule`, the address of the
per-loop variable (Go 1.19 semantics: one variable for all iterations), and
never breaks; the Boolean tracks whether any rule matched, and the stored
cell ends up holding the final element of the list. -/
def matchedRuleLegacy (m : String → String → Bool) (rules : List Rule) (text : String) :
    Option Rule :=
  let st := rules.foldl (fun (st : Bool × Option Rule) r =>
    (st.1 || m r.Pattern text, some r)) (false, none)
  if st.1 then st.2 else none

/-! ## Command builder (`commandFromMessage`, `envsFromUpdate`) -/

/-- The fields of `tgbotapi.Message` the pipeline reads. `Chat`, `From` and
`ReplyToMessage` are nilable pointers in Go; only their used subfields are
kept (chat id; user id; replied-to message id and text). -/
structure TgMessage where
  Text : String := ""
  MessageID : Int := 0
  ChatID : Option Int := none
  FromID : Option Int := none
  ReplyTo : Option (Int × String) := none
deriving DecidableEq

/-- Model of `envsFromUpdate` (telecmd.go lines 177-201) for a non-nil
message (the dispatcher dereferences the message before this call). -/
def envsFromUpdate (message : TgMessage) : List String :=
  (match message.ChatID with
   | some cid => ["TELEGRAM_CHAT_ID=" ++ toString cid]
   | none => []) ++
  (match message.FromID with
   | some uid => ["TELEGRAM_FROM_USER_ID=" ++ toString uid]
   | none => []) ++
  (match message.ReplyTo with
   | some rt =>
     ["TELEGRAM_REPLY_TO_MESSAGE_ID=" ++ toString rt.1,
      "TELEGRAM_REPLY_TO_MESSAGE_TEXT=" ++ rt.2]
   | none => [])

/-- The fields of `exec.Cmd` that `commandFromMessage` sets. `Args` holds the
arguments passed after the executable name (`cmdArgs` in the source);
`Stdin` is the optional attached input text. -/
structure Cmd where
  Path : String
  Args : List String
  Dir : Option String
  Stdin : Option String
  Env : List String
deriving DecidableEq

/-- Model of `commandFromMessage` (telecmd.go lines 129-153). The inherited
process environment `os.Environ()` is the `procEnv` parameter. The Go
function's error return is always `nil`; its only failure mode is the
run-time panic of `args[0]` when `args` is empty (command empty and
`UseStdin` set), modelled as `none`. -/
def commandFromMessage (procEnv : List String) (rule : Rule) (message : TgMessage) :
    Option Cmd :=
  let stdin : Option String := if rule.UseStdin then some message.Text else none
  let args : List String :=
    if rule.UseStdin then rule.Command else rule.Command ++ ["--", message.Text]
  match args with
  | [] => none
  | exe :: cmdArgs =>
    some { Path := exe
           Args := cmdArgs
           Dir := if rule.WorkingDirectory = "" then none else some rule.WorkingDirectory
           Stdin := stdin
           Env := procEnv ++ rule.Environment ++ envsFromUpdate message }

/-- Key of a `KEY=VALUE` environment entry. -/
def envKey (entry : String) : String :=
  String.mk (entry.data.takeWhile (· ≠ '='))

/-- Effective value of a key in an environment list: the last entry with that
key wins (`exec.Cmd` deduplicates the environment keeping later entries). -/
def lookupEnv (env : List String) (k : String) : Option String :=
  (env.filter fun e => envKey e = k).getLast?

/-! ## Process runner (`runCommand`, telecmd.go lines 115-127) -/

/-- The non-nil error outcomes of `cmd.Output()`: an `exec.ExitError`
carrying exit code and captured stderr, or any other error (launch failures
such as a missing executable or denied permission). -/
inductive ExecErr where
  | exitError (code : Int) (stderr : String)
  | other (msg : String)
deriving DecidableEq

/-- Model of `runCommand` (telecmd.go lines 115-127) as a function of the
data cmd.Output() produced: captured stdout `out`, optional error `err`, and
whether the context deadline had been exceeded. Mirrors the source exactly:
when `err` is non-nil but is neither the deadline case nor an
`exec.ExitError`, control falls out of the classification block and the
function returns `(string(out), nil)`. -/
def runCommand (deadlineExceeded : Bool) (out : String) (err : Option ExecErr) :
    String × Option String :=
  match err with
  | none => (out, none)
  | some e =>
    if deadlineExceeded then ("", some "command took too long to finish")
    else
      match e with
      | .exitError code stderr =>
        ("", some ("command exited with code=" ++ toString code ++ "\n\n" ++ stderr))
      | .other _ => (out, none)

/-! ## Per-message dispatch tail (Run, telecmd.go lines 76-99) -/

/-- The string the dispatcher holds after the runner stage: the runner's
output, replaced by the error text when the runner returned an error
(`output = err.Error()`). -/
def effectiveOutput (deadlineExceeded : Bool) (out : String) (err : Option ExecErr) :
    String :=
  let r := runCommand deadlineExceeded out err
  match r.2 with
  | some msg => msg
  | none => r.1

/-- The reply the dispatcher hands to `bot.Send` for one message, as a
function of the runner-stage data: empty output short-circuits to no reply;
otherwise the output interpreter builds the message, whose error also means
no reply. `none` = nothing sent. -/
def replyForOutput (chatID : Int) (deadlineExceeded : Bool) (out : String)
    (err : Option ExecErr) : Option MessageConfig :=
  let output := effectiveOutput deadlineExceeded out err
  if output = "" then none
  else chattableFromStdout chatID output

/-! ## Theorems -/

/-- C1: for every match predicate (in particular the unanchored
`regexp.MatchString`), every rule list and every message text, the matcher
`ruleFromMessage` returns `some r` exactly when the list decomposes as
earlier rules that all fail to match, then `r`, which matches: rules are
evaluated in configuration order and the first match wins; it returns `none`
exactly when no rule matches. -/
theorem ruleFromMessage_first_match (m : String → String → Bool)
    (rules : List Rule) (text : String) :
    (∀ r : Rule, ruleFromMessage m rules text = some r ↔
      ∃ pre post, rules = pre ++ r :: post ∧ m r.Pattern text = true ∧
        ∀ q ∈ pre, m q.Pattern text = false) ∧
    (ruleFromMessage m rules text = none ↔ ∀ q ∈ rules, m q.Pattern text = false) := by
  induction rules with
  | nil =>
    refine ⟨fun r => ?_, ?_⟩
    · simp only [ruleFromMessage]
      constructor
      · intro h; exact absurd h (by simp)
      · rintro ⟨pre, post, hdec, -, -⟩
        exact absurd hdec (by simp)
    · simp [ruleFromMessage]
  | cons a rest ih =>
    cases hm : m a.Pattern text with
    | true =>
      have hstep : ruleFromMessage m (a :: rest) text = some a := by
        simp [ruleFromMessage, hm]
      refine ⟨fun r => ?_, ?_⟩
      · rw [hstep]
        constructor
        · intro h
          obtain rfl : a = r := Option.some.inj h
          exact ⟨[], rest, rfl, hm, by simp⟩
        · rintro ⟨pre, post, hdec, hr, hpre⟩
          cases pre with
          | nil =>
            simp only [List.nil_append, List.cons.injEq] at hdec
            rw [hdec.1]
          | cons p pre1 =>
            simp only [List.cons_append, List.cons.injEq] at hdec
            have hp := hpre p (by simp)
            rw [← hdec.1] at hp
            simp [hm] at hp
      · rw [hstep]
        constructor
        · intro h; exact absurd h (by simp)
        · intro h
          have hA := h a (by simp)
          simp [hm] at hA
    | false =>
      have hstep : ruleFromMessage m (a :: rest) text = ruleFromMessage m rest text := by
        simp [ruleFromMessage, hm]
      refine ⟨fun r => ?_, ?_⟩
      · rw [hstep]
        constructor
        · intro h
          obtain ⟨pre, post, hdec, hr, hpre⟩ := (ih.1 r).mp h
          refine ⟨a :: pre, post, by rw [hdec, List.cons_append], hr, ?_⟩
          intro q hq
          rcases List.mem_cons.mp hq with hqa | hqpre
          · rw [hqa]; exact hm
          · exact hpre q hqpre
        · rintro ⟨pre, post, hdec, hr, hpre⟩
          cases pre with
          | nil =>
            simp only [List.nil_append, List.cons.injEq] at hdec
            rw [← hdec.1] at hr
            simp [hm] at hr
          | cons p pre1 =>
            simp only [List.cons_append, List.cons.injEq] at hdec
            exact (ih.1 r).mpr ⟨pre1, post, hdec.2, hr, fun q hq => hpre q (by simp [hq])⟩
      · rw [hstep, ih.2]
        constructor
        · intro h q hq
          rcases List.mem_cons.mp hq with hqa | hqrest
          · rw [hqa]; exact hm
          · exact h q hqrest
        · intro h q hq
          exact h q (by simp [hq])

/-- C1 witness: with a concrete (prefix-test) match predicate and a two-rule
configuration where both patterns match the text, the matcher returns the
first rule. -/
theorem ruleFromMessage_first_match_w :
    ruleFromMessage (fun p t => p.data.isPrefixOf t.data)
      [{ Pattern := "a" }, { Pattern := "ab" }] "ab" = some { Pattern := "a" } :=
  ((ruleFromMessage_first_match (fun p t => p.data.isPrefixOf t.data)
      [{ Pattern := "a" }, { Pattern := "ab" }] "ab").1 { Pattern := "a" }).mpr
    ⟨[], [{ Pattern := "ab" }], rfl, by decide, by decide⟩

/-- The loop state of the legacy matcher after folding a list, for any start
state: the Boolean accumulates whether any rule matched; the cell holds the
final element when there is one. -/
theorem legacyFoldEq (m : String → String → Bool) (text : String)
    (rules : List Rule) (b : Bool) (o : Option Rule) :
    rules.foldl (fun (st : Bool × Option Rule) r =>
        (st.1 || m r.Pattern text, some r)) (b, o)
      = (b || rules.any (fun r => m r.Pattern text), rules.getLast?.or o) := by
  induction rules generalizing b o with
  | nil => simp
  | cons r rest ih =>
    simp only [List.foldl_cons, List.any_cons]
    rw [ih]
    have h1 : ((b || m r.Pattern text) || rest.any fun q => m q.Pattern text)
        = (b || (m r.Pattern text || rest.any fun q => m q.Pattern text)) :=
      Bool.or_assoc b (m r.Pattern text) _
    have h2 : rest.getLast?.or (some r) = (r :: rest).getLast?.or o := by
      cases rest with
      | nil => simp
      | cons x xs =>
        rw [List.getLast?_cons_cons]
        cases h : (x :: xs).getLast? with
        | none => exact absurd (List.getLast?_eq_none_iff.mp h) (by simp)
        | some y => simp
    rw [h1, h2]

/-- The legacy root `main.go` variant (unnamed/part_000): whenever any rule
matches, its loop dispatches the final element of the rule list, not the
first match — the loop never breaks and stores the address of the shared
loop variable. Recorded to document the first-match/last-match discrepancy
that the current `ruleFromMessage` resolves in favour of first-match. -/
theorem matchedRuleLegacy_last (m : String → String → Bool)
    (rules : List Rule) (text : String) :
    matchedRuleLegacy m rules text =
      if rules.any (fun r => m r.Pattern text) then rules.getLast? else none := by
  unfold matchedRuleLegacy
  rw [legacyFoldEq]
  simp [Option.or_none]

/-- C2 counterexample: on runner output `\x7b"message":""\x7d` the resulting reply
body is the empty string, yet the pipeline still hands a blank message to the
send step — the emptiness check is applied to the raw runner output before
interpretation, not to the resulting body. -/
theorem replyForOutput_blank_sent :
    replyForOutput 1 false "\x7b\"message\":\"\"\x7d" none
      = some { chatID := 1, text := "", removeKeyboard := true } := by decide

/-- C2 (amended): whenever the runner-stage output string is empty —
including empty stdout on success — the pipeline sends no reply; structured
output whose `message` field is empty nevertheless produces a blank reply. -/
theorem replyForOutput_empty_none (chatID : Int) (dl : Bool) (out : String)
    (err : Option ExecErr) (h : effectiveOutput dl out err = "") :
    replyForOutput chatID dl out err = none := by
  unfold replyForOutput
  simp [h]

/-- C2 witness: empty stdout on success yields no reply. -/
theorem replyForOutput_empty_none_w :
    effectiveOutput false "" none = "" ∧ replyForOutput 7 false "" none = none :=
  ⟨rfl, replyForOutput_empty_none 7 false "" none rfl⟩

/-- C3: evaluating the runner at a launch failure (an error from
`cmd.Output()` that is neither the deadline case nor an `exec.ExitError`,
with empty captured stdout and the deadline not exceeded): `runCommand`
returns `("", nil)` — success with empty output, no error surfaced — and the
pipeline therefore ends with no reply and nothing recorded, because the
`err != nil` branch of the classification falls through to
`return string(out), nil`. -/
theorem runCommand_swallows_launch (chatID : Int) (emsg : String) :
    runCommand false "" (some (.other emsg)) = ("", none) ∧
    replyForOutput chatID false "" (some (.other emsg)) = none :=
  ⟨rfl, rfl⟩

/-- C4 counterexample: a rule whose command sequence is empty and does not
use stdin is built without any error: the separator marker becomes the
executable and the message text its only argument — the builder does not
fail on an empty command. -/
theorem commandFromMessage_empty_no_error :
    commandFromMessage [] { Command := [], UseStdin := false } { Text := "hi" }
      = some { Path := "--", Args := ["hi"], Dir := none, Stdin := none, Env := [] } := by
  decide

/-- C4 (amended): the builder never returns an error value; its only failure
mode is the run-time panic of `args[0]`, which happens exactly when the
rule's command is empty and stdin mode is on; every rule with a non-empty
command builds an invocation. -/
theorem commandFromMessage_total (procEnv : List String) (rule : Rule)
    (message : TgMessage) :
    (commandFromMessage procEnv rule message = none ↔
      rule.Command = [] ∧ rule.UseStdin = true) ∧
    (rule.Command ≠ [] → ∃ c, commandFromMessage procEnv rule message = some c) := by
  have hiff : commandFromMessage procEnv rule message = none ↔
      rule.Command = [] ∧ rule.UseStdin = true := by
    cases hs : rule.UseStdin with
    | false =>
      cases hc : rule.Command with
      | nil => simp [commandFromMessage, hs, hc]
      | cons e as => simp [commandFromMessage, hs, hc]
    | true =>
      cases hc : rule.Command with
      | nil => simp [commandFromMessage, hs, hc]
      | cons e as => simp [commandFromMessage, hs, hc]
  refine ⟨hiff, fun h => ?_⟩
  have hne : commandFromMessage procEnv rule message ≠ none :=
    fun hn => h (hiff.mp hn).1
  exact Option.ne_none_iff_exists'.mp hne

/-- C4 witness: a rule with a non-empty command builds an invocation. -/
theorem commandFromMessage_total_w :
    ({ Command := ["echo"] } : Rule).Command ≠ [] ∧
    ∃ c, commandFromMessage [] { Command := ["echo"] } { Text := "hi" } = some c :=
  ⟨by decide,
   (commandFromMessage_total [] { Command := ["echo"] } { Text := "hi" }).2 (by decide)⟩

/-- C5: for every rule with useStdin=false and a non-empty command (the data
model requires command length ≥ 1), the built invocation's argument list is
the rule's fixed arguments, then the literal separator marker `--`, then the
message text as the final argument — equal to the text exactly — and no
stdin is attached. -/
theorem commandFromMessage_args_no_stdin (procEnv : List String) (rule : Rule)
    (message : TgMessage) (exe : String) (fixedArgs : List String)
    (hstdin : rule.UseStdin = false) (hcmd : rule.Command = exe :: fixedArgs) :
    ∃ c, commandFromMessage procEnv rule message = some c ∧
      c.Path = exe ∧
      c.Args = fixedArgs ++ ["--", message.Text] ∧
      c.Args.getLast? = some message.Text ∧
      c.Stdin = none := by
  refine ⟨{ Path := exe, Args := fixedArgs ++ ["--", message.Text],
            Dir := if rule.WorkingDirectory = "" then none
                   else some rule.WorkingDirectory,
            Stdin := none,
            Env := procEnv ++ rule.Environment ++ envsFromUpdate message },
    ?_, rfl, rfl, ?_, rfl⟩
  · simp [commandFromMessage, hstdin, hcmd]
  · rw [show fixedArgs ++ ["--", message.Text]
        = (fixedArgs ++ ["--"]) ++ [message.Text] by simp]
    exact List.getLast?_concat _

/-- C5 witness: a message text full of shell metacharacters lands verbatim
as the final argument after the separator. -/
theorem commandFromMessage_args_no_stdin_w :
    ∃ c, commandFromMessage [] { Command := ["sh", "-c"], UseStdin := false }
        { Text := "-x; rm $HOME" } = some c ∧
      c.Path = "sh" ∧
      c.Args = ["-c"] ++ ["--", "-x; rm $HOME"] ∧
      c.Args.getLast? = some "-x; rm $HOME" ∧
      c.Stdin = none :=
  commandFromMessage_args_no_stdin [] { Command := ["sh", "-c"], UseStdin := false }
    { Text := "-x; rm $HOME" } "sh" ["-c"] rfl rfl

/-- C6 counterexample: with useStdin=true the message text can appear in the
invocation's argument list — when it is already one of the rule's own fixed
arguments. Rule command `echo hi`, message text `hi`: the argument list is
`["hi"]`, which contains the text. -/
theorem commandFromMessage_stdin_text_in_args :
    commandFromMessage [] { Command := ["echo", "hi"], UseStdin := true } { Text := "hi" }
      = some { Path := "echo", Args := ["hi"], Dir := none,
               Stdin := some "hi", Env := [] } ∧
    ({ Text := "hi" } : TgMessage).Text ∈ ["hi"] := by decide

/-- C6 (amended): for every rule with useStdin=true and a non-empty command,
the message text is attached verbatim as the standard-input source and the
builder appends no argument: the argument list is exactly the rule's fixed
arguments, so the text occurs in it only if it is one of those fixed
arguments. -/
theorem commandFromMessage_stdin (procEnv : List String) (rule : Rule)
    (message : TgMessage) (exe : String) (fixedArgs : List String)
    (hstdin : rule.UseStdin = true) (hcmd : rule.Command = exe :: fixedArgs) :
    ∃ c, commandFromMessage procEnv rule message = some c ∧
      c.Path = exe ∧
      c.Args = fixedArgs ∧
      c.Stdin = some message.Text := by
  refine ⟨{ Path := exe, Args := fixedArgs,
            Dir := if rule.WorkingDirectory = "" then none
                   else some rule.WorkingDirectory,
            Stdin := some message.Text,
            Env := procEnv ++ rule.Environment ++ envsFromUpdate message },
    ?_, rfl, rfl, rfl⟩
  simp [commandFromMessage, hstdin, hcmd]

/-- C6 witness: a stdin-mode rule delivers the text on stdin with unchanged
arguments. -/
theorem commandFromMessage_stdin_w :
    ∃ c, commandFromMessage [] { Command := ["cat"], UseStdin := true }
        { Text := "payload" } = some c ∧
      c.Path = "cat" ∧ c.Args = [] ∧ c.Stdin = some "payload" :=
  commandFromMessage_stdin [] { Command := ["cat"], UseStdin := true }
    { Text := "payload" } "cat" [] rfl rfl

/-- Looking a key up in a concatenated environment prefers the later list:
the override mechanism is concatenation order, later entries shadowing
earlier ones. -/
theorem lookupEnv_append (a b : List String) (k : String) :
    lookupEnv (a ++ b) k = (lookupEnv b k).or (lookupEnv a k) := by
  unfold lookupEnv
  rw [List.filter_append, List.getLast?_append]

/-- C7: for every rule with a non-empty command and every message carrying a
chat and a sender, the built invocation's environment is the layered
concatenation of the inherited process environment, the rule's environment
entries, and the message-derived entries — the conversation-id variable, the
sender-id variable, and, only when the message is a reply, the replied-to
message's id and text — and a key's effective value is taken from the latest
layer that binds it (later entries shadow earlier ones). -/
theorem commandFromMessage_env_layers (procEnv : List String) (rule : Rule)
    (message : TgMessage) (cid uid : Int)
    (hchat : message.ChatID = some cid) (hfrom : message.FromID = some uid)
    (hcmd : rule.Command ≠ []) :
    ∃ c, commandFromMessage procEnv rule message = some c ∧
      c.Env = procEnv ++ rule.Environment ++ envsFromUpdate message ∧
      envsFromUpdate message =
        ["TELEGRAM_CHAT_ID=" ++ toString cid, "TELEGRAM_FROM_USER_ID=" ++ toString uid] ++
          (match message.ReplyTo with
           | some rt =>
             ["TELEGRAM_REPLY_TO_MESSAGE_ID=" ++ toString rt.1,
              "TELEGRAM_REPLY_TO_MESSAGE_TEXT=" ++ rt.2]
           | none => []) ∧
      ∀ k, lookupEnv c.Env k =
        (lookupEnv (envsFromUpdate message) k).or
          ((lookupEnv rule.Environment k).or (lookupEnv procEnv k)) := by
  obtain ⟨exe, fixedArgs, hcmd'⟩ : ∃ e fa, rule.Command = e :: fa := by
    cases hcEq : rule.Command with
    | nil => exact absurd hcEq hcmd
    | cons e fa => exact ⟨e, fa, rfl⟩
  have henv : envsFromUpdate message =
      ["TELEGRAM_CHAT_ID=" ++ toString cid, "TELEGRAM_FROM_USER_ID=" ++ toString uid] ++
        (match message.ReplyTo with
         | some rt =>
           ["TELEGRAM_REPLY_TO_MESSAGE_ID=" ++ toString rt.1,
            "TELEGRAM_REPLY_TO_MESSAGE_TEXT=" ++ rt.2]
         | none => []) := by
    unfold envsFromUpdate
    rw [hchat, hfrom]
    cases message.ReplyTo <;> simp
  have hlook : ∀ k, lookupEnv (procEnv ++ rule.Environment ++ envsFromUpdate message) k =
      (lookupEnv (envsFromUpdate message) k).or
        ((lookupEnv rule.Environment k).or (lookupEnv procEnv k)) := by
    intro k
    simp only [lookupEnv_append, Option.or_assoc]
  cases hs : rule.UseStdin with
  | false =>
    exact ⟨{ Path := exe, Args := fixedArgs ++ ["--", message.Text],
             Dir := if rule.WorkingDirectory = "" then none
                    else some rule.WorkingDirectory,
             Stdin := none,
             Env := procEnv ++ rule.Environment ++ envsFromUpdate message },
      by simp [commandFromMessage, hs, hcmd'], rfl, henv, hlook⟩
  | true =>
    exact ⟨{ Path := exe, Args := fixedArgs,
             Dir := if rule.WorkingDirectory = "" then none
                    else some rule.WorkingDirectory,
             Stdin := some message.Text,
             Env := procEnv ++ rule.Environment ++ envsFromUpdate message },
      by simp [commandFromMessage, hs, hcmd'], rfl, henv, hlook⟩

/-- C7 witness: with a key bound in both the inherited environment and the
rule layer, the rule layer wins; the chat-id variable comes from the message
layer. -/
theorem commandFromMessage_env_layers_w :
    ∃ c, commandFromMessage ["FOO=proc", "PATH=/bin"]
        { Command := ["run"], Environment := ["FOO=rule"] }
        { Text := "t", ChatID := some 5, FromID := some 2, ReplyTo := some (9, "orig") }
        = some c ∧
      lookupEnv c.Env "FOO" = some "FOO=rule" ∧
      lookupEnv c.Env "TELEGRAM_CHAT_ID" = some "TELEGRAM_CHAT_ID=5" ∧
      lookupEnv c.Env "PATH" = some "PATH=/bin" := by
  obtain ⟨c, hc, -, -, hlook⟩ :=
    commandFromMessage_env_layers ["FOO=proc", "PATH=/bin"]
      { Command := ["run"], Environment := ["FOO=rule"] }
      { Text := "t", ChatID := some 5, FromID := some 2, ReplyTo := some (9, "orig") }
      5 2 rfl rfl (by decide)
  refine ⟨c, hc, ?_, ?_, ?_⟩
  · rw [hlook "FOO"]; decide
  · rw [hlook "TELEGRAM_CHAT_ID"]; decide
  · rw [hlook "PATH"]; decide

/-- C8: the output interpreter: stdout whose trimmed form begins with a
brace and which unmarshals as a structured object with a string `message`
field yields that field's value as the reply body (in particular stdout
`\x7b"message":"hi"\x7d` yields `hi`); stdout that does not look structured is
yielded verbatim, untrimmed (in particular `hello world` is unchanged). -/
theorem chattableFromStdout_spec :
    (∀ chatID out msg, hasBraceStart (goTrimSpace out) = true →
        unmarshalMessage out = some msg →
        chattableFromStdout chatID out
          = some { chatID := chatID, text := msg, removeKeyboard := true }) ∧
    (∀ chatID out, hasBraceStart (goTrimSpace out) = false →
        chattableFromStdout chatID out
          = some { chatID := chatID, text := out, removeKeyboard := true }) ∧
    chattableFromStdout 1 "\x7b\"message\":\"hi\"\x7d"
      = some { chatID := 1, text := "hi", removeKeyboard := true } ∧
    chattableFromStdout 1 "hello world"
      = some { chatID := 1, text := "hello world", removeKeyboard := true } := by
  refine ⟨?_, ?_, by decide, by decide⟩
  · intro chatID out msg hb hu
    simp [chattableFromStdout, hb, hu]
  · intro chatID out hb
    simp [chattableFromStdout, hb]

/-- C8 witness: the structured and plain branches at concrete inputs. -/
theorem chattableFromStdout_spec_w :
    hasBraceStart (goTrimSpace "  \x7b\"message\":\"hi\"\x7d") = true ∧
    unmarshalMessage "  \x7b\"message\":\"hi\"\x7d" = some "hi" ∧
    chattableFromStdout 2 "  \x7b\"message\":\"hi\"\x7d"
      = some { chatID := 2, text := "hi", removeKeyboard := true } ∧
    hasBraceStart (goTrimSpace "plain") = false ∧
    chattableFromStdout 3 "plain"
      = some { chatID := 3, text := "plain", removeKeyboard := true } :=
  ⟨by decide, by decide,
   chattableFromStdout_spec.1 2 "  \x7b\"message\":\"hi\"\x7d" "hi" (by decide) (by decide),
   by decide,
   chattableFromStdout_spec.2.1 3 "plain" (by decide)⟩

/-- C9: stdout whose trimmed form begins with a brace but which fails to
unmarshal as the structured object shape makes the interpreter return its
error value (`unknown output format`) — a total, non-crashing return — so no
reply message is produced, and a pipeline whose successful run produced that
stdout sends no reply. -/
theorem chattableFromStdout_bad_json (chatID : Int) (out : String)
    (hb : hasBraceStart (goTrimSpace out) = true)
    (hu : unmarshalMessage out = none) :
    chattableFromStdout chatID out = none ∧
    replyForOutput chatID false out none = none := by
  have h1 : chattableFromStdout chatID out = none := by
    simp [chattableFromStdout, hb, hu]
  refine ⟨h1, ?_⟩
  unfold replyForOutput
  have h2 : effectiveOutput false out none = out := rfl
  rw [h2]
  by_cases he : out = ""
  · simp [he]
  · simp [he, h1]

/-- C9 witness: stdout `\x7bnot valid json` yields no reply. -/
theorem chattableFromStdout_bad_json_w :
    hasBraceStart (goTrimSpace "\x7bnot valid json") = true ∧
    unmarshalMessage "\x7bnot valid json" = none ∧
    chattableFromStdout 4 "\x7bnot valid json" = none ∧
    replyForOutput 4 false "\x7bnot valid json" none = none :=
  ⟨by decide, by decide,
   (chattableFromStdout_bad_json 4 "\x7bnot valid json" (by decide) (by decide)).1,
   (chattableFromStdout_bad_json 4 "\x7bnot valid json" (by decide) (by decide)).2⟩

/-- C10: configuration validation rejects an empty rule list — for every
config with no rules, `Config.Validate` returns an error, although every
(vacuous) per-rule check passes. -/
theorem configValidate_empty_rules (compiles : String → Bool) (c : Config)
    (h : c.Rules = []) :
    Config.Validate compiles c = some "rule list cannot be empty" ∧
    ∀ r ∈ c.Rules, Rule.Validate compiles r = none := by
  constructor
  · simp [Config.Validate, h]
  · intro r hr
    rw [h] at hr
    cases hr

/-- C10 witness: the empty-rules config is rejected. -/
theorem configValidate_empty_rules_w :
    Config.Validate (fun _ => true) { Rules := [] } = some "rule list cannot be empty" :=
  (configValidate_empty_rules (fun _ => true) { Rules := [] } rfl).1

end Telecmd
